import Mathlib

/-!
Verification of the swimTO reconciliation pipeline against its specification.

The Python sources under `data-pipeline/` are shallowly embedded here:
strings are `List Char`, `datetime.date` is the proleptic-Gregorian ordinal
(a `Nat`, ordinal 1 = 0001-01-01, a Monday), `datetime.time` is an
hour/minute record, floats arising in scores are exact rationals, and the
storage collaborator is a list of stored hashes.  Functions keep the names
of the Python functions they embed.
-/

set_option autoImplicit false

namespace SwimTO

/-! ### Basic string model (Python `str` as `List Char`, ASCII text) -/

/-- Python `str.lower` on a single ASCII character. -/
def lowerChar (c : Char) : Char := c.toLower

/-- Python `str.upper` on a single ASCII character. -/
def upperChar (c : Char) : Char := c.toUpper

/-- Python `str.lower`. -/
def lowerL (s : List Char) : List Char := s.map lowerChar

/-- Python `str.upper`. -/
def upperL (s : List Char) : List Char := s.map upperChar

/-- Python regex `\s` / `str.split()` whitespace. -/
def isWs (c : Char) : Bool :=
  c == ' ' || c == '\t' || c == '\n' || c == '\x0d' || c == '\x0b' || c == '\x0c'

/-- ASCII decimal digit, Python regex `\d`. -/
def isDigitCh (c : Char) : Bool := '0' ≤ c && c ≤ '9'

/-- Python `str.strip()`. -/
def stripL (s : List Char) : List Char :=
  (s.dropWhile isWs).reverse.dropWhile isWs |>.reverse

/-- Does `t` start with `n`? -/
def startsWithL : List Char → List Char → Bool
  | _, [] => true
  | [], _ :: _ => false
  | c :: t, d :: n => c == d && startsWithL t n

/-- Python substring containment `n in t` (contiguous). -/
def containsSub : List Char → List Char → Bool
  | [], n => startsWithL [] n
  | c :: rest, n => startsWithL (c :: rest) n || containsSub rest n

/-- Length of the maximal whitespace run at the front of `t`. -/
def wsRun : List Char → Nat
  | [] => 0
  | c :: t => if isWs c then wsRun t + 1 else 0

/-- Python `str.split()`: split on runs of whitespace, no empty words. -/
def splitWs : List Char → List (List Char)
  | [] => []
  | c :: t =>
    if isWs c then splitWs t
    else
      match splitWs t with
      | [] => [[c]]
      | w :: ws =>
        match t with
        | [] => [[c]]
        | d :: _ => if isWs d then [c] :: w :: ws else (c :: w) :: ws

/-! ### Dates and times

`Date` is the proleptic-Gregorian ordinal used by `datetime.date.toordinal`
(ordinal 1 is 0001-01-01, which is a Monday), so `timedelta` addition is `Nat`
addition and `date.weekday` is arithmetic mod 7. -/

abbrev Date := Nat

/-- `datetime.date.weekday`: 0 = Monday .. 6 = Sunday. -/
def weekdayOf (d : Date) : Nat := (d + 6) % 7

/-- `datetime.time` restricted to the fields the pipeline constructs
(seconds and microseconds are always zero in parsed sessions). -/
structure Time where
  hour : Nat
  minute : Nat
deriving DecidableEq

/-- Python `time < time` (lexicographic on the pair). -/
def timeLt (a b : Time) : Bool :=
  a.hour < b.hour || (a.hour == b.hour && a.minute < b.minute)

/-- Python `time <= time`. -/
def timeLe (a b : Time) : Bool :=
  timeLt a b || a == b

/-! ### Rendering dates and times as Python `str` does -/

/-- Decimal digits of `n`, left-padded with zeros to width `w`. -/
def padZeros (w n : Nat) : List Char :=
  let d := Nat.toDigits 10 n
  List.replicate (w - d.length) '0' ++ d

/-- Convert a proleptic-Gregorian ordinal to `(year, month, day)`
(the computation `datetime.date.fromordinal` performs). -/
def civilFromOrdinal (n : Date) : Nat × Nat × Nat :=
  let z := n - 1 + 306
  let era := z / 146097
  let doe := z % 146097
  let yoe := (doe - doe / 1460 + doe / 36524 - doe / 146096) / 365
  let y := yoe + era * 400
  let doy := doe - (365 * yoe + yoe / 4 - yoe / 100)
  let mp := (5 * doy + 2) / 153
  let d := doy - (153 * mp + 2) / 5 + 1
  let m := if mp < 10 then mp + 3 else mp - 9
  (if m ≤ 2 then y + 1 else y, m, d)

/-- Python `str(date)`: ISO `YYYY-MM-DD`. -/
def dateISO (d : Date) : List Char :=
  let c := civilFromOrdinal d
  padZeros 4 c.1 ++ "-".toList ++ padZeros 2 c.2.1 ++ "-".toList ++ padZeros 2 c.2.2

/-- Python `str(time)` for the times the pipeline builds: `HH:MM:SS`
with zero seconds. -/
def timeISO (t : Time) : List Char :=
  padZeros 2 t.hour ++ ":".toList ++ padZeros 2 t.minute ++ ":00".toList

/-! ### SHA-256 (`hashlib.sha256(...).hexdigest()`) over UTF-8 bytes -/

/-- UTF-8 encoding of one character (`str.encode`). -/
def utf8Bytes (c : Char) : List Nat :=
  let n := c.toNat
  if n < 128 then [n]
  else if n < 2048 then [192 ||| (n >>> 6), 128 ||| (n &&& 63)]
  else if n < 65536 then
    [224 ||| (n >>> 12), 128 ||| ((n >>> 6) &&& 63), 128 ||| (n &&& 63)]
  else
    [240 ||| (n >>> 18), 128 ||| ((n >>> 12) &&& 63),
     128 ||| ((n >>> 6) &&& 63), 128 ||| (n &&& 63)]

/-- 32-bit right rotation. -/
def rotr32 (n x : Nat) : Nat :=
  ((x >>> n) ||| (x <<< (32 - n))) % 4294967296

/-- The 64 SHA-256 round constants. -/
def sha256K : List Nat :=
  [1116352408, 1899447441, 3049323471, 3921009573,
   961987163, 1508970993, 2453635748, 2870763221,
   3624381080, 310598401, 607225278, 1426881987,
   1925078388, 2162078206, 2614888103, 3248222580,
   3835390401, 4022224774, 264347078, 604807628,
   770255983, 1249150122, 1555081692, 1996064986,
   2554220882, 2821834349, 2952996808, 3210313671,
   3336571891, 3584528711, 113926993, 338241895,
   666307205, 773529912, 1294757372, 1396182291,
   1695183700, 1986661051, 2177026350, 2456956037,
   2730485921, 2820302411, 3259730800, 3345764771,
   3516065817, 3600352804, 4094571909, 275423344,
   430227734, 506948616, 659060556, 883997877,
   958139571, 1322822218, 1537002063, 1747873779,
   1955562222, 2024104815, 2227730452, 2361852424,
   2428436474, 2756734187, 3204031479, 3329325298]

/-- The initial SHA-256 hash state. -/
def sha256H0 : List Nat :=
  [1779033703, 3144134277, 1013904242, 2773480762,
   1359893119, 2600822924, 528734635, 1541459225]

/-- Big-endian bytes of a 64-bit quantity. -/
def be64 (n : Nat) : List Nat :=
  [(n >>> 56) &&& 255, (n >>> 48) &&& 255, (n >>> 40) &&& 255, (n >>> 32) &&& 255,
   (n >>> 24) &&& 255, (n >>> 16) &&& 255, (n >>> 8) &&& 255, n &&& 255]

/-- Big-endian bytes of a 32-bit word. -/
def be32 (n : Nat) : List Nat :=
  [(n >>> 24) &&& 255, (n >>> 16) &&& 255, (n >>> 8) &&& 255, n &&& 255]

/-- SHA-256 padding of a byte message. -/
def sha256Pad (msg : List Nat) : List Nat :=
  msg ++ [128] ++ List.replicate ((119 - msg.length % 64) % 64) 0 ++ be64 (8 * msg.length)

/-- Group bytes into big-endian 32-bit words. -/
def bytesToWords : List Nat → List Nat
  | a :: b :: c :: d :: rest =>
    ((a <<< 24) ||| (b <<< 16) ||| (c <<< 8) ||| d) :: bytesToWords rest
  | _ => []

/-- Split a word list into 16-word blocks. -/
def blocks16 : List Nat → List (List Nat)
  | [] => []
  | w :: rest => ((w :: rest).take 16) :: blocks16 ((w :: rest).drop 16)
termination_by l => l.length
decreasing_by simp; omega

/-- Extend a 16-word block by `k` further schedule words. -/
def sha256Extend (ws : List Nat) : Nat → List Nat
  | 0 => ws
  | k + 1 =>
    let w := sha256Extend ws k
    let i := w.length
    let w15 := w.getD (i - 15) 0
    let w2 := w.getD (i - 2) 0
    let s0 := (rotr32 7 w15) ^^^ (rotr32 18 w15) ^^^ (w15 >>> 3)
    let s1 := (rotr32 17 w2) ^^^ (rotr32 19 w2) ^^^ (w2 >>> 10)
    w ++ [(w.getD (i - 16) 0 + s0 + w.getD (i - 7) 0 + s1) % 4294967296]

/-- One SHA-256 compression round. -/
def sha256Round (st : List Nat) (kw : Nat × Nat) : List Nat :=
  let a := st.getD 0 0
  let b := st.getD 1 0
  let c := st.getD 2 0
  let d := st.getD 3 0
  let e := st.getD 4 0
  let f := st.getD 5 0
  let g := st.getD 6 0
  let h := st.getD 7 0
  let S1 := (rotr32 6 e) ^^^ (rotr32 11 e) ^^^ (rotr32 25 e)
  let ch := (e &&& f) ^^^ ((4294967295 - e) &&& g)
  let T1 := (h + S1 + ch + kw.1 + kw.2) % 4294967296
  let S0 := (rotr32 2 a) ^^^ (rotr32 13 a) ^^^ (rotr32 22 a)
  let maj := (a &&& b) ^^^ (a &&& c) ^^^ (b &&& c)
  let T2 := (S0 + maj) % 4294967296
  [(T1 + T2) % 4294967296, a, b, c, (d + T1) % 4294967296, e, f, g]

/-- Compress one block into the running hash state. -/
def sha256Block (hst : List Nat) (block : List Nat) : List Nat :=
  let w := sha256Extend block 48
  let st := (sha256K.zip w).foldl (fun st p => sha256Round st (p.2, p.1)) hst
  (hst.zip st).map (fun p => (p.1 + p.2) % 4294967296)

/-- SHA-256 digest (32 bytes) of a byte message. -/
def sha256Bytes (msg : List Nat) : List Nat :=
  ((blocks16 (bytesToWords (sha256Pad msg))).foldl sha256Block sha256H0).flatMap be32

/-- Lower-case hexadecimal digit. -/
def hexDigit (n : Nat) : Char := "0123456789abcdef".toList.getD n '0'

/-- Two hex characters of a byte. -/
def byteHex (b : Nat) : List Char := [hexDigit (b / 16), hexDigit (b % 16)]

/-- `hashlib.sha256(s.encode()).hexdigest()`. -/
def sha256hex (s : List Char) : List Char :=
  (sha256Bytes (s.flatMap utf8Bytes)).flatMap byteHex

/-! ### Canonical sessions and the content hash -/

/-- One stored session row (the fields `daily_refresh.py` writes). -/
structure Session where
  facility_id : List Char
  swim_type : List Char
  date : Date
  start_time : Time
  end_time : Time
  notes : Option (List Char)
  source : List Char
deriving DecidableEq

namespace TorontoDropInAPI

/-! ### `sources/toronto_drop_in_api.py`: `parse_days_of_week` -/

/-- The `day_mapping` dictionary in `parse_days_of_week`, in insertion
(and hence iteration) order. -/
def dayMapping : List (List Char × Nat) :=
  [("monday".toList, 0), ("mon".toList, 0), ("mo".toList, 0),
   ("tuesday".toList, 1), ("tue".toList, 1), ("tu".toList, 1),
   ("wednesday".toList, 2), ("wed".toList, 2), ("we".toList, 2),
   ("thursday".toList, 3), ("thu".toList, 3), ("th".toList, 3),
   ("friday".toList, 4), ("fri".toList, 4), ("fr".toList, 4),
   ("saturday".toList, 5), ("sat".toList, 5), ("sa".toList, 5),
   ("sunday".toList, 6), ("sun".toList, 6), ("su".toList, 6)]

/-- One step of the day-collection loop body:
`if day_name in text: if day_num not in days: days.append(day_num)`. -/
def dayStep (text : List Char) (days : List Nat) (p : List Char × Nat) : List Nat :=
  if containsSub text p.1 && !(List.elem p.2 days) then days ++ [p.2] else days

/-- The loop over `day_mapping.items()` in `parse_days_of_week`. -/
def buildDays (text : List Char) : List Nat :=
  dayMapping.foldl (dayStep text) []

/-- `TorontoDropInAPI.parse_days_of_week`: collect weekday numbers whose
name or abbreviation occurs in the lower-cased text, then sort. -/
def parse_days_of_week (schedule_text : List Char) : List Nat :=
  if schedule_text.isEmpty then []
  else List.insertionSort (· ≤ ·) (buildDays (lowerL schedule_text))

/-! ### `TorontoDropInAPI.generate_session_hash` -/

/-- `generate_session_hash`: SHA-256 of
`facility_id ":" str(session_date) ":" str(start_time) ":" swim_type`. -/
def generate_session_hash (facility_id : List Char) (session_date : Date)
    (start_time : Time) (swim_type : List Char) : List Char :=
  sha256hex (facility_id ++ ":".toList ++ dateISO session_date ++ ":".toList ++
    timeISO start_time ++ ":".toList ++ swim_type)

/-! ### `TorontoDropInAPI.generate_session_dates` -/

/-- The `while current_date <= end_date` loop of `generate_session_dates`,
with the number of remaining iterations made explicit. -/
def sdLoop (days : List Nat) : Nat → Nat → Nat → List Date
  | 0, _, _ => []
  | fuel + 1, current, endD =>
    if current ≤ endD then
      (if List.elem (weekdayOf current) days then [current] else []) ++
        sdLoop days fuel (current + 1) endD
    else []

/-- `TorontoDropInAPI.generate_session_dates`.  `today` (`date.today()` in
the source) is an explicit parameter. -/
def generate_session_dates (days_of_week : List Nat) (start_date : Option Date)
    (end_date : Option Date) (weeks_ahead : Nat) (today : Date) : List Date :=
  if days_of_week.isEmpty then []
  else
    let sd := match start_date with
      | none => today
      | some d => if d < today then today else d
    let ed := match end_date with
      | none => sd + 7 * weeks_ahead
      | some e => e
    sdLoop days_of_week (ed + 1 - sd) sd ed

end TorontoDropInAPI

/-- The session's content hash as `ingest_official_schedules` computes it:
only `facility_id`, `date`, `start_time` and `swim_type` are passed. -/
def sessionHash (s : Session) : List Char :=
  TorontoDropInAPI.generate_session_hash s.facility_id s.date s.start_time s.swim_type

namespace FacilityScraper

/-! ### `sources/facility_scraper.py`: `generate_session_hash`

The scraper variant receives the date and time already rendered as strings. -/

/-- `FacilityScraper.generate_session_hash`. -/
def generate_session_hash (facility_id date start_time swim_type : List Char) :
    List Char :=
  sha256hex (facility_id ++ ":".toList ++ date ++ ":".toList ++
    start_time ++ ":".toList ++ swim_type)

end FacilityScraper

namespace DailyRefresh

/-! ### `jobs/daily_refresh.py`: the insert loop of `ingest_official_schedules`

The storage collaborator is modelled as the list of content hashes of stored
session rows.  For each session the job computes the hash, queries storage for
that hash and inserts only when the query finds nothing.  The function returns
the final store and the hashes inserted, in order. -/

/-- The per-program session insert loop of `ingest_official_schedules`. -/
def ingest_official_sessions :
    List (List Char) → List Session → List (List Char) × List (List Char)
  | store, [] => (store, [])
  | store, s :: rest =>
    let h := sessionHash s
    if h ∈ store then ingest_official_sessions store rest
    else
      let r := ingest_official_sessions (h :: store) rest
      (r.1, h :: r.2)

end DailyRefresh

namespace DailyRefreshEnhanced

/-! ### `jobs/daily_refresh_enhanced.py`: the database update section

`refresh_schedules_enhanced` first issues `db.query(Schedule).delete()` and
then `db.add(...)` for every matched session, with no lookup of any stored
hash.  The function returns the table contents after the run together with
the content hashes of the rows it inserted, in order. -/

/-- The delete-then-insert database section of `refresh_schedules_enhanced`.
The prior store is deleted wholesale, so its contents are never consulted. -/
def refresh_schedules_enhanced (_store : List Session)
    (matched_sessions : List Session) : List Session × List (List Char) :=
  (matched_sessions, matched_sessions.map sessionHash)

end DailyRefreshEnhanced

/-! ### Python `strptime` time formats used by `parse_time_string`

Each format is the regular expression Python `_strptime` builds for it,
required to consume the whole string: `%I` is `(1[0-2]|0[1-9]|[1-9])`,
`%H` is `(2[0-3]|[0-1]\d|\d)`, `%M` is `([0-5]\d|\d)` and `%p` is `(AM|PM)`
on the upper-cased input. -/

/-- One AM/PM designator. -/
inductive AmPm where
  | am
  | pm
deriving DecidableEq

/-- Numeric value of an ASCII digit. -/
def dval (c : Char) : Nat := c.toNat - '0'.toNat

/-- `%I`: 12-hour hour field, `(1[0-2]|0[1-9]|[1-9])`. -/
def matchI : List Char → Option (Nat × List Char)
  | '1' :: b :: rest =>
    if '0' ≤ b && b ≤ '2' then some (10 + dval b, rest) else some (1, b :: rest)
  | '0' :: b :: rest =>
    if '1' ≤ b && b ≤ '9' then some (dval b, rest) else none
  | c :: rest => if '1' ≤ c && c ≤ '9' then some (dval c, rest) else none
  | [] => none

/-- `%H`: 24-hour hour field, `(2[0-3]|[0-1]\d|\d)`. -/
def matchH : List Char → Option (Nat × List Char)
  | '2' :: b :: rest =>
    if '0' ≤ b && b ≤ '3' then some (20 + dval b, rest) else some (2, b :: rest)
  | c :: b :: rest =>
    if (c == '0' || c == '1') && isDigitCh b then some (10 * dval c + dval b, rest)
    else if isDigitCh c then some (dval c, b :: rest)
    else none
  | [c] => if isDigitCh c then some (dval c, []) else none
  | [] => none

/-- `%M`: minute field, `([0-5]\d|\d)`. -/
def matchM : List Char → Option (Nat × List Char)
  | c :: b :: rest =>
    if ('0' ≤ c && c ≤ '5') && isDigitCh b then some (10 * dval c + dval b, rest)
    else if isDigitCh c then some (dval c, b :: rest)
    else none
  | [c] => if isDigitCh c then some (dval c, []) else none
  | [] => none

/-- `%p` on the upper-cased input. -/
def matchP : List Char → Option (AmPm × List Char)
  | 'A' :: 'M' :: rest => some (.am, rest)
  | 'P' :: 'M' :: rest => some (.pm, rest)
  | _ => none

/-- `strptime` hour adjustment for `%I` with `%p`. -/
def applyAmPm (h : Nat) : AmPm → Nat
  | .am => if h == 12 then 0 else h
  | .pm => if h == 12 then 12 else h + 12

/-- Format `%I:%M%p`. -/
def fmtIMp (t : List Char) : Option Time :=
  (matchI t).bind fun hr =>
    match hr.2 with
    | ':' :: r2 =>
      (matchM r2).bind fun mr =>
        (matchP mr.2).bind fun pr =>
          if pr.2.isEmpty then some ⟨applyAmPm hr.1 pr.1, mr.1⟩ else none
    | _ => none

/-- Format `%I:%M %p`. -/
def fmtIMsp (t : List Char) : Option Time :=
  (matchI t).bind fun hr =>
    match hr.2 with
    | ':' :: r2 =>
      (matchM r2).bind fun mr =>
        match mr.2 with
        | ' ' :: r3 =>
          (matchP r3).bind fun pr =>
            if pr.2.isEmpty then some ⟨applyAmPm hr.1 pr.1, mr.1⟩ else none
        | _ => none
    | _ => none

/-- Format `%H:%M`. -/
def fmtHM (t : List Char) : Option Time :=
  (matchH t).bind fun hr =>
    match hr.2 with
    | ':' :: r2 =>
      (matchM r2).bind fun mr =>
        if mr.2.isEmpty then some ⟨hr.1, mr.1⟩ else none
    | _ => none

/-- Format `%I%p`. -/
def fmtIp (t : List Char) : Option Time :=
  (matchI t).bind fun hr =>
    (matchP hr.2).bind fun pr =>
      if pr.2.isEmpty then some ⟨applyAmPm hr.1 pr.1, 0⟩ else none

/-- Format `%I %p`. -/
def fmtIsp (t : List Char) : Option Time :=
  (matchI t).bind fun hr =>
    match hr.2 with
    | ' ' :: r2 =>
      (matchP r2).bind fun pr =>
        if pr.2.isEmpty then some ⟨applyAmPm hr.1 pr.1, 0⟩ else none
    | _ => none

namespace TorontoDropInAPI

/-! ### `TorontoDropInAPI.parse_time_string` and `parse_time_range` -/

/-- The substitution `re.sub(r'\s+(AM|PM)', r'\1', time_str)` on the
upper-cased input: delete every whitespace run immediately preceding
`AM` or `PM`. -/
def stripWsAmPm : List Char → List Char
  | [] => []
  | c :: rest =>
    if isWs c then
      let after := rest.dropWhile isWs
      if startsWithL after "AM".toList || startsWithL after "PM".toList
      then stripWsAmPm rest
      else c :: stripWsAmPm rest
    else c :: stripWsAmPm rest

/-- `TorontoDropInAPI.parse_time_string`: strip, upper-case, remove spaces
before AM/PM, then try the five `strptime` formats in order. -/
def parse_time_string (time_str : List Char) : Option Time :=
  if time_str.isEmpty then none
  else
    let s := stripWsAmPm (upperL (stripL time_str))
    (fmtIMp s).orElse fun _ =>
      (fmtIMsp s).orElse fun _ =>
        (fmtHM s).orElse fun _ =>
          (fmtIp s).orElse fun _ => fmtIsp s

/-! The `finditer` engine for the time-range regular expression
`(\d{1,2}:\d{2}\s*(?:AM|PM)?)\s*[-â€“to]\s*(\d{1,2}:\d{2}\s*(?:AM|PM)?)`
with `re.IGNORECASE`.  Backtracking alternatives are enumerated in the
preference order of the Python engine: a greedy quantifier tries longer
widths first, an alternation tries its branches left to right, an optional
group first tries to match. -/

/-- Candidate widths `hi, hi-1, ..., 0`, the preference order of a greedy
`\s*` whose maximal run has length `hi`. -/
def descWs (hi : Nat) : List Nat := (List.range (hi + 1)).map (fun i => hi - i)

/-- Candidate `(width, value)` readings of `\d{1,2}`, two digits preferred. -/
def digits12 : List Char → List (Nat × Nat)
  | a :: b :: _ =>
    (if isDigitCh a && isDigitCh b then [(2, 10 * dval a + dval b)] else []) ++
      (if isDigitCh a then [(1, dval a)] else [])
  | [a] => if isDigitCh a then [(1, dval a)] else []
  | [] => []

/-- Exactly `\d{2}`. -/
def digits2 : List Char → Option Nat
  | a :: b :: _ => if isDigitCh a && isDigitCh b then some (10 * dval a + dval b) else none
  | _ => none

/-- Candidate widths of `(?:AM|PM)?` under `re.IGNORECASE`:
a present designator is preferred over the empty alternative. -/
def ampmWidths (t : List Char) : List Nat :=
  (if startsWithL (lowerL t) "am".toList || startsWithL (lowerL t) "pm".toList
   then [2] else []) ++ [0]

/-- One character of the separator class `[-â€“to]` under `re.IGNORECASE`
(the class spells an en dash through its UTF-8 bytes read as text). -/
def isSepCh (c : Char) : Bool :=
  c == '-' || c == 'â' || c == 'Â' || c == '€' || c == '“' ||
    c == 't' || c == 'T' || c == 'o' || c == 'O'

/-- Candidate widths of one time group `\d{1,2}:\d{2}\s*(?:AM|PM)?`
at the head of `t`, in backtracking preference order. -/
def timeGrpWidths (t : List Char) : List Nat :=
  (digits12 t).flatMap fun dc =>
    match t.drop dc.1 with
    | ':' :: t2 =>
      match digits2 t2 with
      | some _ =>
        let t3 := t2.drop 2
        (descWs (wsRun t3)).flatMap fun w =>
          (ampmWidths (t3.drop w)).map fun aw => dc.1 + 3 + w + aw
      | none => []
    | _ => []

/-- Match the whole range pattern at the head of `t`; on success return
`(width of group 1, offset of group 2, width of group 2, total width)`. -/
def matchRangeAt (t : List Char) : Option (Nat × Nat × Nat × Nat) :=
  (timeGrpWidths t).findSome? fun L1 =>
    let t1 := t.drop L1
    (descWs (wsRun t1)).findSome? fun w1 =>
      match t1.drop w1 with
      | c :: _ =>
        if isSepCh c then
          let t3 := t1.drop (w1 + 1)
          (descWs (wsRun t3)).findSome? fun w2 =>
            let off2 := L1 + w1 + 1 + w2
            (timeGrpWidths (t.drop off2)).findSome? fun L2 =>
              some (L1, off2, L2, off2 + L2)
        else none
      | [] => none

/-- `re.finditer`: scan left to right, skipping past each match. -/
def finditerAux : Nat → List Char → List (List Char × List Char)
  | 0, _ => []
  | fuel + 1, t =>
    match matchRangeAt t with
    | some m => (t.take m.1, (t.drop m.2.1).take m.2.2.1) :: finditerAux fuel (t.drop m.2.2.2)
    | none =>
      match t with
      | [] => []
      | _ :: r => finditerAux fuel r

/-- All matches of the time-range pattern, as `(group 1, group 2)` texts. -/
def finditerTimeRanges (t : List Char) : List (List Char × List Char) :=
  finditerAux (t.length + 1) t

/-- `re.search(r'(AM|PM)', s, re.IGNORECASE)` as a Boolean. -/
def hasAmPm (s : List Char) : Bool :=
  containsSub (lowerL s) "am".toList || containsSub (lowerL s) "pm".toList

/-- `re.search(r'(AM|PM)', s, re.IGNORECASE).group(1)`: the first
designator occurrence, with its original casing. -/
def findAmPmTok : List Char → Option (List Char)
  | a :: b :: rest =>
    if (lowerChar a == 'a' || lowerChar a == 'p') && lowerChar b == 'm'
    then some [a, b]
    else findAmPmTok (b :: rest)
  | _ => none

/-- The end-string fix-up of `parse_time_range`: if the end string carries
no AM/PM, inherit the start string's designator when present. -/
def inheritEnd (m : List Char × List Char) : List Char :=
  if hasAmPm m.2 then m.2
  else
    match findAmPmTok m.1 with
    | some tok => m.2 ++ ' ' :: tok
    | none => m.2

/-- The per-match body of `parse_time_range`: inherit a missing AM/PM on
the end string from the start string, parse both, and keep the pair only
when `end_time > start_time`. -/
def rangeStep (acc : List (Time × Time)) (m : List Char × List Char) :
    List (Time × Time) :=
  match parse_time_string m.1, parse_time_string (inheritEnd m) with
  | some st, some et => if timeLt st et then acc ++ [(st, et)] else acc
  | _, _ => acc

/-- `TorontoDropInAPI.parse_time_range`. -/
def parse_time_range (schedule_text : List Char) : List (Time × Time) :=
  if schedule_text.isEmpty then []
  else (finditerTimeRanges schedule_text).foldl rangeStep []

end TorontoDropInAPI

namespace FacilityScraper

/-! ### `FacilityScraper.parse_time_text`

`re.search` of
`(\d{1,2}):(\d{2})\s*(am|pm)?\s*-\s*(\d{1,2}):(\d{2})\s*(am|pm)?`
on the lower-cased text, followed by the group conversion of lines 332-354.
Note that, unlike `parse_time_range`, this parser inherits a missing
designator in both directions and performs no `end > start` check. -/

/-- The six captured groups of the scraper time-range pattern. -/
structure SGroups where
  sh : Nat
  sm : Nat
  sp : Option AmPm
  eh : Nat
  em : Nat
  ep : Option AmPm
deriving DecidableEq

/-- Candidate `(width, value)` readings of `(am|pm)?` on lower-cased text,
a present designator preferred. -/
def ampmGrp (t : List Char) : List (Nat × Option AmPm) :=
  (if startsWithL t "am".toList then [(2, some AmPm.am)] else []) ++
    (if startsWithL t "pm".toList then [(2, some AmPm.pm)] else []) ++ [(0, none)]

/-- Match the scraper pattern at the head of `t`, returning its groups. -/
def matchScraperAt (t : List Char) : Option SGroups :=
  (TorontoDropInAPI.digits12 t).findSome? fun d1 =>
    match t.drop d1.1 with
    | ':' :: t2 =>
      match TorontoDropInAPI.digits2 t2 with
      | some sm =>
        let t3 := t2.drop 2
        (TorontoDropInAPI.descWs (wsRun t3)).findSome? fun w1 =>
          (ampmGrp (t3.drop w1)).findSome? fun a1 =>
            let t5 := t3.drop (w1 + a1.1)
            (TorontoDropInAPI.descWs (wsRun t5)).findSome? fun w2 =>
              match t5.drop w2 with
              | '-' :: t7 =>
                (TorontoDropInAPI.descWs (wsRun t7)).findSome? fun w3 =>
                  let t8 := t7.drop w3
                  (TorontoDropInAPI.digits12 t8).findSome? fun d2 =>
                    match t8.drop d2.1 with
                    | ':' :: t10 =>
                      match TorontoDropInAPI.digits2 t10 with
                      | some em =>
                        let t11 := t10.drop 2
                        (TorontoDropInAPI.descWs (wsRun t11)).findSome? fun w4 =>
                          (ampmGrp (t11.drop w4)).findSome? fun a2 =>
                            some ⟨d1.2, sm, a1.2, d2.2, em, a2.2⟩
                      | none => none
                    | _ => none
              | _ => none
      | none => none
    | _ => none

/-- `re.search`: first position where the scraper pattern matches. -/
def searchScraper : List Char → Option SGroups
  | [] => matchScraperAt []
  | c :: rest =>
    match matchScraperAt (c :: rest) with
    | some g => some g
    | none => searchScraper rest

/-- Lines 332-354 of `facility_scraper.py`: inherit a missing designator
from the sibling in either direction, convert to 24-hour, and build the
`time` objects; a constructor error (hour above 23 or minute above 59)
is caught and yields `None`. -/
def convertScraperGroups (g : SGroups) : Option (Time × Time) :=
  let start_period := match g.sp with
    | some p => some p
    | none => g.ep
  let end_period := match g.ep with
    | some p => some p
    | none => g.sp
  let sh := if start_period = some AmPm.pm ∧ g.sh ≠ 12 then g.sh + 12
    else if start_period = some AmPm.am ∧ g.sh = 12 then 0
    else g.sh
  let eh := if end_period = some AmPm.pm ∧ g.eh ≠ 12 then g.eh + 12
    else if end_period = some AmPm.am ∧ g.eh = 12 then 0
    else g.eh
  if sh ≤ 23 ∧ g.sm ≤ 59 ∧ eh ≤ 23 ∧ g.em ≤ 59
  then some (⟨sh, g.sm⟩, ⟨eh, g.em⟩)
  else none

/-- `FacilityScraper.parse_time_text`. -/
def parse_time_text (time_text : List Char) : Option (Time × Time) :=
  (searchScraper (lowerL time_text)).bind convertScraperGroups

end FacilityScraper

namespace EnhancedParser

/-! ### `sources/enhanced_parser.py`: `detect_schedule_conflicts`

Sessions are grouped by `(facility_name, date)` (a `defaultdict`, so keys
iterate in first-seen order), each group is stably sorted by start time,
and adjacent pairs are scanned.  Recording a conflict evaluates
`session1.end_time - session2.start_time`; `datetime.time` does not
implement subtraction, so that expression raises `TypeError`, which the
embedding surfaces as an `Except` error. -/

/-- The exception the embedding tracks. -/
inductive PyErr where
  | typeError
deriving DecidableEq

/-- A session dictionary as the conflict detector consumes it. -/
structure CSession where
  facility_name : List Char
  date : Date
  start_time : Time
  end_time : Time
  swim_type : List Char
  course_name : List Char
deriving DecidableEq

/-- `datetime.time` subtraction: unsupported, always a `TypeError`. -/
def timeSubStr (_a _b : Time) : Except PyErr (List Char) :=
  .error .typeError

/-- `f-string` rendering `start - end` used in conflict records. -/
def fmtTimeRange (a b : Time) : List Char :=
  timeISO a ++ " - ".toList ++ timeISO b

/-- One recorded conflict. -/
structure Conflict where
  facility : List Char
  date : Date
  name1 : List Char
  time1 : List Char
  name2 : List Char
  time2 : List Char
  overlap_duration : List Char
deriving DecidableEq

/-- The `(facility_name, date)` keys in first-seen order. -/
def groupKeysCD (ss : List CSession) : List (List Char × Date) :=
  ss.foldl (fun ks s =>
    if (s.facility_name, s.date) ∈ ks then ks else ks ++ [(s.facility_name, s.date)]) []

/-- The sessions of one group, in encounter order. -/
def groupGet (ss : List CSession) (k : List Char × Date) : List CSession :=
  ss.filter fun s => s.facility_name == k.1 && s.date == k.2

/-- Stable insertion of a session into a start-time-sorted list. -/
def insertByStart (s : CSession) : List CSession → List CSession
  | [] => [s]
  | y :: ys =>
    if timeLt y.start_time s.start_time then y :: insertByStart s ys else s :: y :: ys

/-- Stable sort by start time (`day_sessions.sort(key=...)`). -/
def sortByStart : List CSession → List CSession
  | [] => []
  | s :: ss => insertByStart s (sortByStart ss)

/-- Adjacent pairs `(sessions[i], sessions[i+1])`. -/
def adjPairs (l : List CSession) : List (CSession × CSession) :=
  l.zip l.tail

/-- `EnhancedDataParser.detect_schedule_conflicts`. -/
def detect_schedule_conflicts (sessions : List CSession) :
    Except PyErr (List Conflict) :=
  (groupKeysCD sessions).foldlM (fun conflicts k =>
    (adjPairs (sortByStart (groupGet sessions k))).foldlM (fun conflicts p =>
      if timeLt p.2.start_time p.1.end_time then
        match timeSubStr p.1.end_time p.2.start_time with
        | .error e => .error e
        | .ok dur =>
          .ok (conflicts ++ [⟨k.1, k.2, p.1.course_name,
            fmtTimeRange p.1.start_time p.1.end_time, p.2.course_name,
            fmtTimeRange p.2.start_time p.2.end_time, dur⟩])
      else .ok conflicts) conflicts) []

/-! ### `EnhancedDataParser.match_facility_with_score` -/

/-- One facility directory entry. -/
structure Facility where
  facility_id : List Char
  name : List Char
  address : List Char
  postal_code : List Char
deriving DecidableEq

/-- The location attributes consulted by the scorer
(`location_data.get('Address')` and `location_data.get('PostalCode')`). -/
structure LocData where
  address : List Char
  postal_code : List Char
deriving DecidableEq

/-- Python `str.replace(' ', '')`. -/
def removeSpaces (s : List Char) : List Char := s.filter fun c => c ≠ ' '

/-- The additive similarity score of one facility against the query.
Floats are modelled as exact rationals. -/
def facilityScore (locName : List Char) (locData : Option LocData)
    (f : Facility) : ℚ :=
  let facName := stripL (lowerL f.name)
  let locWords := (splitWs locName).dedup
  let facWords := (splitWs facName).dedup
  let s1 : ℚ :=
    if locWords ≠ [] ∧ facWords ≠ [] then
      ((locWords.filter (· ∈ facWords)).length : ℚ) /
        (((locWords ++ facWords).dedup).length : ℚ) * (1 / 2)
    else 0
  let s2 : ℚ :=
    if containsSub facName locName || containsSub locName facName then 3 / 10 else 0
  let s3 : ℚ :=
    match locData with
    | some ld =>
      let la := lowerL ld.address
      let fa := lowerL f.address
      if la ≠ [] ∧ fa ≠ [] ∧ (containsSub fa la || containsSub la fa)
      then 3 / 20 else 0
    | none => 0
  let s4 : ℚ :=
    match locData with
    | some ld =>
      let lp := upperL (removeSpaces ld.postal_code)
      let fp := upperL (removeSpaces f.postal_code)
      if lp ≠ [] ∧ fp ≠ [] ∧ lp = fp then 2 / 5 else 0
    | none => 0
  s1 + s2 + s3 + s4

/-- The facility loop of `match_facility_with_score`: exact name equality
returns immediately with score 1.0, otherwise the best strictly-improving
score is tracked and compared with the threshold at the end. -/
def mfLoop (locName : List Char) (locData : Option LocData) (threshold : ℚ) :
    List Facility → Option (List Char) → ℚ → Option (Option (List Char) × ℚ)
  | [], best_match, best_score =>
    if threshold ≤ best_score then some (best_match, best_score) else none
  | f :: fs, best_match, best_score =>
    if stripL (lowerL f.name) = locName then some (some f.facility_id, 1)
    else
      let score := facilityScore locName locData f
      if best_score < score then mfLoop locName locData threshold fs (some f.facility_id) score
      else mfLoop locName locData threshold fs best_match best_score

/-- `EnhancedDataParser.match_facility_with_score` (threshold 0.6 at the
call sites relevant here). -/
def match_facility_with_score (location_name : List Char)
    (locData : Option LocData) (facilities : List Facility) (threshold : ℚ) :
    Option (Option (List Char) × ℚ) :=
  if location_name.isEmpty then none
  else mfLoop (stripL (lowerL location_name)) locData threshold facilities none 0

/-! ### `EnhancedDataParser.classify_swim_activity_advanced`

The `SWIM_TYPE_PATTERNS` regular expressions are sequences of lower-case
literals joined by `\s+` or `\s*`, with one optional letter; `SPat`
captures exactly that shape and the matcher reproduces the Python engine's
backtracking order (greedy whitespace, optional letter preferred). -/

/-- One element of a swim-type pattern. -/
inductive SPat where
  | lit : List Char → SPat
  | ws1 : SPat
  | ws0 : SPat
  | optC : Char → SPat

/-- Candidate widths `hi, hi-1, ..., 1` of a greedy `\s+` whose maximal
run has length `hi`. -/
def descWsPos (hi : Nat) : List Nat := (List.range hi).map (fun i => hi - i)

/-- Match a pattern sequence at the head of `t`, returning the matched
width; greedy whitespace tries longer widths first and an optional letter
first tries to match, reproducing the Python engine's preference order. -/
def matchSeq : List SPat → List Char → Option Nat
  | [], _ => some 0
  | .lit s :: rest, t =>
    if startsWithL t s then (matchSeq rest (t.drop s.length)).map (s.length + ·)
    else none
  | .ws1 :: rest, t =>
    (descWsPos (wsRun t)).findSome? fun k => (matchSeq rest (t.drop k)).map (k + ·)
  | .ws0 :: rest, t =>
    (TorontoDropInAPI.descWs (wsRun t)).findSome? fun k =>
      (matchSeq rest (t.drop k)).map (k + ·)
  | .optC c :: rest, t =>
    match t with
    | d :: t2 =>
      if d == c then
        match matchSeq rest t2 with
        | some r => some (r + 1)
        | none => matchSeq rest t
      else matchSeq rest t
    | [] => matchSeq rest t

/-- `re.search`: width of the match at the leftmost matching position. -/
def searchLen (p : List SPat) : List Char → Option Nat
  | [] => matchSeq p []
  | c :: rest =>
    match matchSeq p (c :: rest) with
    | some n => some n
    | none => searchLen p rest

/-- `TorontoDropInAPI.SWIM_KEYWORDS`. -/
def SWIM_KEYWORDS : List (List Char) :=
  ["lane swim".toList, "lane swimming".toList, "lap swim".toList,
   "lap swimming".toList, "leisure swim".toList, "recreational swim".toList,
   "family swim".toList, "adult swim".toList, "senior swim".toList,
   "aquafit".toList, "aqua fit".toList, "water fit".toList, "aquacise".toList,
   "aqua aerobics".toList, "public swim".toList, "open swim".toList,
   "drop-in swim".toList]

/-- `TorontoDropInAPI.is_swim_activity`. -/
def is_swim_activity (course_name category : List Char) : Bool :=
  let text := lowerL (course_name ++ " ".toList ++ category)
  SWIM_KEYWORDS.any fun kw => containsSub text kw

/-- `TorontoDropInAPI.SWIM_TYPE_PATTERNS`, flattened in dictionary
insertion order with each type's patterns in list order. -/
def SWIM_TYPE_PATTERNS : List (List Char × List SPat) :=
  [("LANE_SWIM".toList, [.lit "lane".toList, .ws1, .lit "swim".toList]),
   ("LANE_SWIM".toList, [.lit "lap".toList, .ws1, .lit "swim".toList]),
   ("LANE_SWIM".toList, [.lit "length".toList, .ws1, .lit "swim".toList]),
   ("LANE_SWIM".toList, [.lit "adult".toList, .ws1, .lit "lane".toList]),
   ("LANE_SWIM".toList, [.lit "senior".toList, .ws1, .lit "lane".toList]),
   ("AQUAFIT".toList, [.lit "aqua".toList, .ws0, .lit "fit".toList]),
   ("AQUAFIT".toList, [.lit "water".toList, .ws1, .lit "fit".toList]),
   ("AQUAFIT".toList, [.lit "aqua".toList, .ws0, .lit "cise".toList]),
   ("AQUAFIT".toList, [.lit "aqua".toList, .ws1, .lit "aerobics".toList]),
   ("AQUAFIT".toList, [.lit "water".toList, .ws1, .lit "aerobics".toList]),
   ("RECREATIONAL".toList, [.lit "leisure".toList, .ws1, .lit "swim".toList]),
   ("RECREATIONAL".toList, [.lit "recreational".toList, .ws1, .lit "swim".toList]),
   ("RECREATIONAL".toList, [.lit "family".toList, .ws1, .lit "swim".toList]),
   ("RECREATIONAL".toList, [.lit "public".toList, .ws1, .lit "swim".toList]),
   ("RECREATIONAL".toList, [.lit "open".toList, .ws1, .lit "swim".toList]),
   ("ADULT_SWIM".toList, [.lit "adult".toList, .ws1, .lit "swim".toList]),
   ("ADULT_SWIM".toList, [.lit "adult".toList, .ws1, .lit "only".toList]),
   ("SENIOR_SWIM".toList, [.lit "senior".toList, .ws1, .lit "swim".toList]),
   ("SENIOR_SWIM".toList, [.lit "senior".toList, .optC 's', .ws1, .lit "only".toList]),
   ("SENIOR_SWIM".toList, [.lit "older".toList, .ws1, .lit "adult".toList])]

/-- Python regex `\w` restricted to ASCII text. -/
def isWordChar (c : Char) : Bool :=
  ('a' ≤ c && c ≤ 'z') || ('A' ≤ c && c ≤ 'Z') || isDigitCh c || c == '_'

/-- A word of a `\b(...)\b` alternation matched at the head of `t` with a
valid trailing boundary. -/
def wordAt (t w : List Char) : Bool :=
  startsWithL t w &&
    (let lastW := isWordChar (w.getLastD 'a')
     match t.drop w.length with
     | [] => lastW
     | d :: _ => lastW != isWordChar d)

/-- Scan for a `\b(...)\b` alternation; `prevW` records whether the
character before the current position is a word character. -/
def searchWordAlt (ws : List (List Char)) (prevW : Bool) : List Char → Bool
  | [] => false
  | c :: rest =>
    (ws.any fun w => (prevW != isWordChar (w.headD 'a')) && wordAt (c :: rest) w) ||
      searchWordAlt ws (isWordChar c) rest

/-- The age-group detection chain (first matching regex wins). -/
def ageGroupOf (text : List Char) : Option (List Char) :=
  if searchWordAlt ["child".toList, "kid".toList, "youth".toList] false text
  then some "youth".toList
  else if searchWordAlt ["adult".toList, "19+".toList, "18+".toList] false text
  then some "adult".toList
  else if searchWordAlt ["senior".toList, "55+".toList, "60+".toList, "65+".toList] false text
  then some "senior".toList
  else if searchWordAlt ["family".toList] false text
  then some "family".toList
  else none

/-- The tag list built by substring checks. -/
def tagsOf (text : List Char) : List (List Char) :=
  (if containsSub text "adult".toList then ["adults_only".toList] else []) ++
    (if containsSub text "senior".toList then ["seniors".toList] else []) ++
    (if containsSub text "family".toList then ["family_friendly".toList] else []) ++
    (if containsSub text "deep".toList then ["deep_water".toList] else []) ++
    (if containsSub text "shallow".toList then ["shallow_water".toList] else [])

/-- The result record of the advanced classifier. -/
structure ClassificationResult where
  is_swim : Bool
  swim_type : Option (List Char)
  confidence : ℚ
  tags : List (List Char)
  age_group : Option (List Char)

/-- One step of the swim-type loop: a matching pattern updates the
current best when its proxy confidence is strictly larger. -/
def patternStep (text : List Char) (title_len : Nat)
    (cur : Option (List Char) × ℚ) (p : List Char × List SPat) :
    Option (List Char) × ℚ :=
  match searchLen p.2 text with
  | none => cur
  | some len =>
    let pc := min 1 ((len : ℚ) / (title_len : ℚ) * 2)
    if cur.2 < pc then (p.1, pc) else cur

/-- `EnhancedDataParser.classify_swim_activity_advanced`.  The proxy
confidence divides by `len(course_name)`; on an empty title Python would
raise `ZeroDivisionError`, which no claim exercises (a title containing a
keyword is nonempty). -/
def classify_swim_activity_advanced (course_name category : List Char) :
    ClassificationResult :=
  let text := lowerL (course_name ++ " ".toList ++ category)
  if !(is_swim_activity course_name category) then
    ⟨false, none, 0, [], none⟩
  else
    let st := SWIM_TYPE_PATTERNS.foldl (patternStep text course_name.length)
      ((none : Option (List Char)), (0 : ℚ))
    let st := match st.1 with
      | none => ((some "LANE_SWIM".toList : Option (List Char)), (1 / 2 : ℚ))
      | some ty => (some ty, st.2)
    ⟨true, st.1, st.2, tagsOf text, ageGroupOf text⟩

/-! ### `EnhancedDataParser.validate_session_data`

The Python issue strings are carried as an inductive type, one constructor
per `f-string` shape, so that issue identity is visible to the proofs. -/

/-- One validation issue (`Missing required field: f`,
`Invalid time range: s - e`, `Date is in the past: d`,
`Date is too far in future: d`, `Invalid swim type: t`). -/
inductive Issue where
  | missingField : List Char → Issue
  | invalidTimeRange : Time → Time → Issue
  | datePast : Date → Issue
  | dateFuture : Date → Issue
  | invalidSwimType : List Char → Issue
deriving DecidableEq

/-- A session dictionary as the validator consumes it.  Absent dictionary
keys and `None` values are `none`; an empty string is falsy.  (All `time`
objects are truthy on the supported Python versions.) -/
structure VSession where
  facility_name : List Char
  date : Option Date
  start_time : Option Time
  end_time : Option Time
  swim_type : List Char
deriving DecidableEq

/-- The `valid_types` list of `validate_session_data` (it omits OTHER). -/
def valid_types : List (List Char) :=
  ["LANE_SWIM".toList, "AQUAFIT".toList, "RECREATIONAL".toList,
   "ADULT_SWIM".toList, "SENIOR_SWIM".toList]

/-- `EnhancedDataParser.validate_session_data` with `date.today()` passed
explicitly; issues accumulate across all checks.  Returns
`(is_valid, issues)`. -/
def validate_session_data (today : Date) (s : VSession) : Bool × List Issue :=
  let issues :=
    (if s.facility_name = [] then [Issue.missingField "facility_name".toList] else []) ++
    (if s.date = none then [Issue.missingField "date".toList] else []) ++
    (if s.start_time = none then [Issue.missingField "start_time".toList] else []) ++
    (if s.end_time = none then [Issue.missingField "end_time".toList] else []) ++
    (if s.swim_type = [] then [Issue.missingField "swim_type".toList] else []) ++
    (match s.start_time, s.end_time with
     | some st, some et =>
       if timeLe et st then [Issue.invalidTimeRange st et] else []
     | _, _ => []) ++
    (match s.date with
     | some d =>
       if (d : Int) - (today : Int) < -30 then [Issue.datePast d]
       else if (d : Int) - (today : Int) > 180 then [Issue.dateFuture d]
       else []
     | none => []) ++
    (if s.swim_type ≠ [] ∧ s.swim_type ∉ valid_types
     then [Issue.invalidSwimType s.swim_type] else [])
  (issues.isEmpty, issues)

end EnhancedParser

/-! ### Concrete data used by witnesses and counterexamples

Ordinal 739194 is 2024-11-04, a Monday. -/

/-- A concrete session as `ingest_official_schedules` builds them. -/
def sampleSession : Session :=
  ⟨"high-park-pool".toList, "LANE_SWIM".toList, 739194, ⟨10, 0⟩, ⟨11, 30⟩,
   none, "toronto_open_data".toList⟩

/-- The facility-directory entry of the matching-threshold scenario. -/
def highParkPool : EnhancedParser.Facility :=
  ⟨"high-park-pool".toList, "High Park Pool".toList,
   "375 Colborne Lodge Dr".toList, "M6R 2Z6".toList⟩

/-- A session from 10:00 to 11:30 at one facility and date. -/
def conflictSessionA : EnhancedParser.CSession :=
  ⟨"Test Pool".toList, 739194, ⟨10, 0⟩, ⟨11, 30⟩, "LANE_SWIM".toList,
   "Morning Lane Swim".toList⟩

/-- An overlapping session from 11:00 to 12:30 at the same facility and date. -/
def conflictSessionB : EnhancedParser.CSession :=
  ⟨"Test Pool".toList, 739194, ⟨11, 0⟩, ⟨12, 30⟩, "AQUAFIT".toList,
   "Late Morning Aquafit".toList⟩

/-- A disjoint session from 14:00 to 15:30 at the same facility and date. -/
def conflictSessionC : EnhancedParser.CSession :=
  ⟨"Test Pool".toList, 739194, ⟨14, 0⟩, ⟨15, 30⟩, "LANE_SWIM".toList,
   "Afternoon Lane Swim".toList⟩

/-- A session whose swim type is OTHER and whose other fields are valid. -/
def otherTypeSession : EnhancedParser.VSession :=
  ⟨"Test Pool".toList, some 739194, some ⟨10, 0⟩, some ⟨11, 30⟩, "OTHER".toList⟩

end SwimTO

/-! ## Theorems -/

namespace SwimTO

lemma startsWithL_append (a b n : List Char) (h : startsWithL a n = true) :
    startsWithL (a ++ b) n = true := by
  induction a generalizing n with
  | nil =>
    cases n with
    | nil => cases b with
      | nil => rfl
      | cons d t => rfl
    | cons d t => simp [startsWithL] at h
  | cons c a ih =>
    cases n with
    | nil => rfl
    | cons d t =>
      simp only [startsWithL, Bool.and_eq_true] at h ⊢
      exact ⟨h.1, ih t h.2⟩

lemma containsSub_append_right (a b n : List Char) (h : containsSub a n = true) :
    containsSub (a ++ b) n = true := by
  induction a with
  | nil =>
    cases n with
    | nil => cases b with
      | nil => rfl
      | cons d t => simp [containsSub, startsWithL]
    | cons d t => simp [containsSub, startsWithL] at h
  | cons c a ih =>
    simp only [containsSub, Bool.or_eq_true] at h ⊢
    rcases h with h | h
    · exact Or.inl (startsWithL_append _ b _ h)
    · exact Or.inr (ih h)

namespace TorontoDropInAPI

lemma mem_foldl_dayStep_of_mem (t : List Char) (l : List (List Char × Nat))
    (acc : List Nat) (a : Nat) (h : a ∈ acc) : a ∈ l.foldl (dayStep t) acc := by
  induction l generalizing acc with
  | nil => exact h
  | cons q l ih =>
    refine ih _ ?_
    unfold dayStep
    split
    · exact List.mem_append_left _ h
    · exact h

lemma mem_foldl_dayStep (t : List Char) (l : List (List Char × Nat))
    (acc : List Nat) (p : List Char × Nat) (hp : p ∈ l)
    (hc : containsSub t p.1 = true) : p.2 ∈ l.foldl (dayStep t) acc := by
  induction l generalizing acc with
  | nil => cases hp
  | cons q l ih =>
    rcases List.mem_cons.mp hp with h | h
    · subst h
      refine mem_foldl_dayStep_of_mem t l _ _ ?_
      unfold dayStep
      cases he : List.elem p.2 acc with
      | true => simpa using List.mem_of_elem_eq_true he
      | false => simp [hc, he]
    · exact ih _ h

lemma nodup_foldl_dayStep (t : List Char) (l : List (List Char × Nat))
    (acc : List Nat) (h : acc.Nodup) : (l.foldl (dayStep t) acc).Nodup := by
  induction l generalizing acc with
  | nil => exact h
  | cons q l ih =>
    refine ih _ ?_
    unfold dayStep
    split
    · rename_i hcond
      simp only [Bool.and_eq_true, Bool.not_eq_true'] at hcond
      have h2 : q.2 ∉ acc := fun hm => by
        simp at hcond
        exact hcond.2 hm
      simp [List.nodup_append, h, h2]
    · exact h

end TorontoDropInAPI

/-- Claim C10: for every schedule text, `parse_days_of_week` returns a
sorted, duplicate-free list of weekday numbers, and the result contains a
weekday whenever any of that weekday's names or abbreviations (including
the two-letter ones such as `th` and `we`) occurs as a substring of the
lower-cased text. -/
theorem claim10_parse_days_sorted_nodup_substrings (text : List Char) :
    (TorontoDropInAPI.parse_days_of_week text).Sorted (· ≤ ·) ∧
    (TorontoDropInAPI.parse_days_of_week text).Nodup ∧
    ∀ p ∈ TorontoDropInAPI.dayMapping, containsSub (lowerL text) p.1 = true →
      p.2 ∈ TorontoDropInAPI.parse_days_of_week text := by
  unfold TorontoDropInAPI.parse_days_of_week
  split
  · rename_i hempty
    have htext : text = [] := List.isEmpty_iff.mp (by simpa using hempty)
    subst htext
    refine ⟨List.sorted_nil, List.nodup_nil, ?_⟩
    intro p hp hc
    have hne : ∀ q ∈ TorontoDropInAPI.dayMapping, q.1 ≠ ([] : List Char) := by decide
    cases hq : p.1 with
    | nil => exact absurd hq (hne p hp)
    | cons c cs =>
      rw [hq] at hc
      simp [lowerL, containsSub, startsWithL] at hc
  · refine ⟨List.sorted_insertionSort _ _, ?_, ?_⟩
    · exact ((List.perm_insertionSort _ _).nodup_iff).mpr
        (TorontoDropInAPI.nodup_foldl_dayStep _ _ _ List.nodup_nil)
    · intro p hp hc
      exact ((List.perm_insertionSort _ _).mem_iff).mpr
        (TorontoDropInAPI.mem_foldl_dayStep _ _ _ p hp hc)

/-- Witness for C10: the text `Youth` contains `th` and yields Thursday;
the text `we` yields Wednesday. -/
theorem claim10_witness :
    3 ∈ TorontoDropInAPI.parse_days_of_week "Youth".toList ∧
    2 ∈ TorontoDropInAPI.parse_days_of_week "we".toList :=
  ⟨(claim10_parse_days_sorted_nodup_substrings "Youth".toList).2.2
      ("th".toList, 3) (by decide) (by decide),
   (claim10_parse_days_sorted_nodup_substrings "we".toList).2.2
      ("we".toList, 2) (by decide) (by decide)⟩

/-- Claim C1: the content hash of a session is a deterministic function of
exactly `(facility_id, date, start_time, swim_type)`: two sessions agreeing
on those four fields hash identically, whatever their `end_time`, `notes`
and `source` are. -/
theorem claim1_hash_depends_only_on_identity_fields
    (fid st : List Char) (d : Date) (t e1 e2 : Time)
    (n1 n2 : Option (List Char)) (src1 src2 : List Char) :
    sessionHash ⟨fid, st, d, t, e1, n1, src1⟩ =
      sessionHash ⟨fid, st, d, t, e2, n2, src2⟩ := rfl

end SwimTO
namespace SwimTO
namespace DailyRefresh

lemma ingest_store_mono (ss : List Session) :
    ∀ (store : List (List Char)) (h : List Char), h ∈ store →
      h ∈ (ingest_official_sessions store ss).1 := by
  induction ss with
  | nil => intro store h hm; exact hm
  | cons s rest ih =>
    intro store h hm
    unfold ingest_official_sessions
    by_cases hc : sessionHash s ∈ store
    · simp only [if_pos hc]
      exact ih store h hm
    · simp only [if_neg hc]
      exact ih _ h (List.mem_cons_of_mem _ hm)

lemma ingest_hash_mem (ss : List Session) :
    ∀ (store : List (List Char)) (s : Session), s ∈ ss →
      sessionHash s ∈ (ingest_official_sessions store ss).1 := by
  induction ss with
  | nil => intro _ _ hm; cases hm
  | cons q rest ih =>
    intro store s hm
    unfold ingest_official_sessions
    rcases List.mem_cons.mp hm with h | h
    · subst h
      by_cases hc : sessionHash s ∈ store
      · simp only [if_pos hc]
        exact ingest_store_mono rest store _ hc
      · simp only [if_neg hc]
        exact ingest_store_mono rest _ _ (List.mem_cons_self _ _)
    · by_cases hc : sessionHash q ∈ store
      · simp only [if_pos hc]
        exact ih store s h
      · simp only [if_neg hc]
        exact ih _ s h

lemma ingest_inserted_fresh (ss : List Session) :
    ∀ (store : List (List Char)) (h : List Char),
      h ∈ (ingest_official_sessions store ss).2 → h ∉ store := by
  induction ss with
  | nil => intro _ _ hm; cases hm
  | cons s rest ih =>
    intro store h hm
    unfold ingest_official_sessions at hm
    by_cases hc : sessionHash s ∈ store
    · simp only [if_pos hc] at hm
      exact ih store h hm
    · simp only [if_neg hc] at hm
      rcases List.mem_cons.mp hm with h1 | h1
      · subst h1; exact hc
      · intro hs
        exact ih _ h h1 (List.mem_cons_of_mem _ hs)

lemma ingest_inserted_nodup (ss : List Session) :
    ∀ (store : List (List Char)), (ingest_official_sessions store ss).2.Nodup := by
  induction ss with
  | nil => intro _; exact List.nodup_nil
  | cons s rest ih =>
    intro store
    unfold ingest_official_sessions
    by_cases hc : sessionHash s ∈ store
    · simp only [if_pos hc]
      exact ih store
    · simp only [if_neg hc]
      refine List.nodup_cons.mpr ⟨?_, ih _⟩
      intro hm
      exact ingest_inserted_fresh rest _ _ hm (List.mem_cons_self _ _)

lemma ingest_skip_all (ss : List Session) :
    ∀ (store : List (List Char)), (∀ s ∈ ss, sessionHash s ∈ store) →
      ingest_official_sessions store ss = (store, []) := by
  induction ss with
  | nil => intro _ _; rfl
  | cons s rest ih =>
    intro store hall
    unfold ingest_official_sessions
    have hc : sessionHash s ∈ store := hall s (List.mem_cons_self _ _)
    simp only [if_pos hc]
    exact ih store fun q hq => hall q (List.mem_cons_of_mem _ hq)

end DailyRefresh

theorem claim2_upsert_by_hash (store : List (List Char)) (ss : List Session) :
    (DailyRefresh.ingest_official_sessions store ss).2.Nodup ∧
    (∀ h ∈ (DailyRefresh.ingest_official_sessions store ss).2, h ∉ store) ∧
    (DailyRefresh.ingest_official_sessions
      (DailyRefresh.ingest_official_sessions store ss).1 ss).2 = [] := by
  refine ⟨DailyRefresh.ingest_inserted_nodup ss store,
    fun h hm => DailyRefresh.ingest_inserted_fresh ss store h hm, ?_⟩
  have := DailyRefresh.ingest_skip_all ss
    (DailyRefresh.ingest_official_sessions store ss).1
    (fun s hs => DailyRefresh.ingest_hash_mem ss store s hs)
  rw [this]

theorem claim2_witness :
    (DailyRefresh.ingest_official_sessions [] [sampleSession]).2.Nodup ∧
    (DailyRefresh.ingest_official_sessions
      (DailyRefresh.ingest_official_sessions [] [sampleSession]).1
      [sampleSession]).2 = [] :=
  ⟨(claim2_upsert_by_hash [] [sampleSession]).1,
   (claim2_upsert_by_hash [] [sampleSession]).2.2⟩

theorem claim2_counterexample :
    (DailyRefreshEnhanced.refresh_schedules_enhanced [sampleSession] [sampleSession]).2
        = [sessionHash sampleSession] ∧
    sessionHash sampleSession ∈ [sampleSession].map sessionHash ∧
    ¬ (DailyRefreshEnhanced.refresh_schedules_enhanced []
        [sampleSession, sampleSession]).2.Nodup := by
  refine ⟨rfl, by simp, ?_⟩
  simp [DailyRefreshEnhanced.refresh_schedules_enhanced]

end SwimTO
namespace SwimTO
namespace TorontoDropInAPI

lemma rangeStep_invariant (ms : List (List Char × List Char)) :
    ∀ (acc : List (Time × Time)),
      (∀ pr ∈ acc, timeLt pr.1 pr.2 = true) →
      ∀ pr ∈ ms.foldl rangeStep acc, timeLt pr.1 pr.2 = true := by
  induction ms with
  | nil => intro acc hacc; exact hacc
  | cons m ms ih =>
    intro acc hacc
    rw [List.foldl_cons]
    refine ih _ ?_
    intro pr hpr
    unfold rangeStep at hpr
    split at hpr
    · split at hpr
      · rename_i hlt
        rcases List.mem_append.mp hpr with h | h
        · exact hacc pr h
        · have : pr = _ := List.mem_singleton.mp h
          subst this
          exact hlt
      · exact hacc pr hpr
    · exact hacc pr hpr

end TorontoDropInAPI
end SwimTO
namespace SwimTO

/-- Claim C3 (amended): every pair returned by the API time-range parser
satisfies `end_time > start_time`; the scraper's `parse_time_text` performs
no such check (see the counterexample). -/
theorem claim3_api_ranges_end_after_start (schedule_text : List Char) :
    ∀ pr ∈ TorontoDropInAPI.parse_time_range schedule_text,
      timeLt pr.1 pr.2 = true := by
  intro pr hpr
  unfold TorontoDropInAPI.parse_time_range at hpr
  split at hpr
  · cases hpr
  · exact TorontoDropInAPI.rangeStep_invariant _ [] (fun _ h => by cases h) pr hpr

/-- Witness for C3: the range `10:00 AM - 11:30 AM` parses to a pair and
the theorem applies to it. -/
theorem claim3_witness :
    ((⟨10, 0⟩ : Time), (⟨11, 30⟩ : Time)) ∈
        TorontoDropInAPI.parse_time_range "10:00 AM - 11:30 AM".toList ∧
    timeLt ⟨10, 0⟩ ⟨11, 30⟩ = true :=
  ⟨by decide,
   claim3_api_ranges_end_after_start "10:00 AM - 11:30 AM".toList
     (⟨10, 0⟩, ⟨11, 30⟩) (by decide)⟩

/-- Counterexample for C3: `parse_time_text` returns the pair
`(02:00, 01:00)` for the text `2:00 - 1:00`, a parsed pair with
`end <= start` that is not rejected. -/
theorem claim3_counterexample :
    FacilityScraper.parse_time_text "2:00 - 1:00".toList =
        some (⟨2, 0⟩, ⟨1, 0⟩) ∧
    timeLe ⟨1, 0⟩ ⟨2, 0⟩ = true := by
  exact ⟨by decide, by decide⟩

end SwimTO
namespace SwimTO
namespace TorontoDropInAPI

lemma sdLoop_eq (days : List Nat) (fuel : Nat) :
    ∀ (c e : Nat), fuel = e + 1 - c →
      sdLoop days fuel c e =
        ((List.range fuel).map (c + ·)).filter
          (fun d => List.elem (weekdayOf d) days) := by
  induction fuel with
  | zero => intro c e h; rfl
  | succ n ih =>
    intro c e h
    have hce : c ≤ e := by omega
    rw [sdLoop]
    simp only [if_pos hce]
    rw [ih (c + 1) e (by omega)]
    rw [List.range_succ_eq_map, List.map_cons, List.map_map]
    have hcomp : ((fun x => c + x) ∘ Nat.succ) = (fun x => (c + 1) + x) := by
      funext k
      simp only [Function.comp_apply]
      omega
    rw [hcomp, List.filter_cons]
    by_cases hm : weekdayOf c ∈ days <;> simp [hm]

end TorontoDropInAPI

/-- Claim C4 (amended): with weekday pattern Monday and Wednesday, a
declared start date `D` that is a Monday on or after today, no end date and
a two-week horizon, `generate_session_dates` enumerates the matching
weekdays of the closed interval from `D` to `D + 14` and returns exactly
five dates: `D`, `D+2`, `D+7`, `D+9` and `D+14` (the endpoint Monday is
included). -/
theorem claim4_two_week_monday_wednesday (today D : Nat)
    (hD : weekdayOf D = 0) (hT : today ≤ D) :
    TorontoDropInAPI.generate_session_dates [0, 2] (some D) none 2 today =
      [D, D + 2, D + 7, D + 9, D + 14] := by
  unfold TorontoDropInAPI.generate_session_dates
  rw [if_neg (by decide)]
  have h1 : ¬ (D < today) := by omega
  simp only [if_neg h1]
  have hf : D + 7 * 2 + 1 - D = 15 := by omega
  rw [hf, TorontoDropInAPI.sdLoop_eq [0, 2] 15 D (D + 7 * 2) (by omega)]
  have hw : ∀ k, weekdayOf (D + k) = k % 7 := by
    intro k
    unfold weekdayOf at hD ⊢
    omega
  have hr : List.range 15 = [0,1,2,3,4,5,6,7,8,9,10,11,12,13,14] := rfl
  rw [hr]
  simp [List.filter, hw, hD, List.elem]

end SwimTO
namespace SwimTO

/-- Witness for C4: with `D = today = 739194` (Monday 2024-11-04) the five
dates are the Mondays and Wednesdays of both weeks plus the closing
Monday. -/
theorem claim4_witness :
    TorontoDropInAPI.generate_session_dates [0, 2] (some 739194) none 2 739194 =
      [739194, 739196, 739201, 739203, 739208] := by
  have := claim4_two_week_monday_wednesday 739194 739194 (by decide) (by decide)
  simpa using this

/-- Counterexample for C4: the same scenario yields five session dates,
not the four the claim states. -/
theorem claim4_counterexample :
    (TorontoDropInAPI.generate_session_dates [0, 2] (some 739194) none 2
      739194).length = 5 := by decide

/-- Claim C5: at one facility and date, the sessions 10:00-11:30 and
11:00-12:30 make the detector evaluate `time - time`, which raises
`TypeError` instead of returning one 30-minute conflict record; the
disjoint pair 10:00-11:30 and 14:00-15:30 yields zero conflicts. -/
theorem claim5_conflict_detector_raises :
    EnhancedParser.detect_schedule_conflicts [conflictSessionA, conflictSessionB] =
        .error .typeError ∧
    EnhancedParser.detect_schedule_conflicts [conflictSessionA, conflictSessionC] =
        .ok [] := ⟨rfl, rfl⟩

end SwimTO
namespace SwimTO
namespace EnhancedParser

lemma highPark_score_community :
    facilityScore "high park community pool".toList none highParkPool = 3 / 8 := by
  simp only [facilityScore]
  have c1 : (splitWs "high park community pool".toList).dedup ≠ [] ∧
      (splitWs (stripL (lowerL highParkPool.name))).dedup ≠ [] := by
    constructor <;> decide
  have c2 : ¬ ((containsSub (stripL (lowerL highParkPool.name))
        "high park community pool".toList ||
      containsSub "high park community pool".toList
        (stripL (lowerL highParkPool.name))) = true) := by decide
  rw [if_pos c1, if_neg c2]
  have e1 : ((splitWs "high park community pool".toList).dedup.filter
      (· ∈ (splitWs (stripL (lowerL highParkPool.name))).dedup)).length = 3 := by decide
  have e2 : (((splitWs "high park community pool".toList).dedup ++
      (splitWs (stripL (lowerL highParkPool.name))).dedup).dedup).length = 4 := by decide
  rw [e1, e2]
  norm_num

end EnhancedParser
end SwimTO
namespace SwimTO
namespace EnhancedParser

lemma highPark_score_unknown :
    facilityScore "unknown pool center".toList none highParkPool = 1 / 10 := by
  simp only [facilityScore]
  have c1 : (splitWs "unknown pool center".toList).dedup ≠ [] ∧
      (splitWs (stripL (lowerL highParkPool.name))).dedup ≠ [] := by
    constructor <;> decide
  have c2 : ¬ ((containsSub (stripL (lowerL highParkPool.name))
        "unknown pool center".toList ||
      containsSub "unknown pool center".toList
        (stripL (lowerL highParkPool.name))) = true) := by decide
  rw [if_pos c1, if_neg c2]
  have e1 : ((splitWs "unknown pool center".toList).dedup.filter
      (· ∈ (splitWs (stripL (lowerL highParkPool.name))).dedup)).length = 1 := by decide
  have e2 : (((splitWs "unknown pool center".toList).dedup ++
      (splitWs (stripL (lowerL highParkPool.name))).dedup).dedup).length = 5 := by decide
  rw [e1, e2]
  norm_num

end EnhancedParser

/-- Claim C6 (amended): against a directory holding exactly High Park Pool
at M6R 2Z6, the scored matcher (which applies no suffix stripping) scores
`High Park Community Pool` with no postal code at 0.375, below the 0.6
threshold, and returns absent; `Unknown Pool Center` scores 0.1 and also
returns absent. -/
theorem claim6_threshold_matcher :
    EnhancedParser.match_facility_with_score "High Park Community Pool".toList
        none [highParkPool] (3 / 5) = none ∧
    EnhancedParser.match_facility_with_score "Unknown Pool Center".toList
        none [highParkPool] (3 / 5) = none := by
  constructor
  · unfold EnhancedParser.match_facility_with_score
    rw [if_neg (by decide)]
    rw [show stripL (lowerL "High Park Community Pool".toList) =
      "high park community pool".toList from by decide]
    unfold EnhancedParser.mfLoop
    rw [if_neg (by decide)]
    simp only [EnhancedParser.highPark_score_community]
    rw [if_pos (by norm_num)]
    unfold EnhancedParser.mfLoop
    rw [if_neg (by norm_num)]
  · unfold EnhancedParser.match_facility_with_score
    rw [if_neg (by decide)]
    rw [show stripL (lowerL "Unknown Pool Center".toList) =
      "unknown pool center".toList from by decide]
    unfold EnhancedParser.mfLoop
    rw [if_neg (by decide)]
    simp only [EnhancedParser.highPark_score_unknown]
    rw [if_pos (by norm_num)]
    unfold EnhancedParser.mfLoop
    rw [if_neg (by norm_num)]

/-- Counterexample for C6: the matcher returns absent, not a facility with
score at least 0.6, for `High Park Community Pool`. -/
theorem claim6_counterexample :
    (EnhancedParser.match_facility_with_score "High Park Community Pool".toList
      none [highParkPool] (3 / 5)).isSome = false := by
  have h : EnhancedParser.match_facility_with_score "High Park Community Pool".toList
      none [highParkPool] (3 / 5) = none := by
    unfold EnhancedParser.match_facility_with_score
    rw [if_neg (by decide)]
    rw [show stripL (lowerL "High Park Community Pool".toList) =
      "high park community pool".toList from by decide]
    unfold EnhancedParser.mfLoop
    rw [if_neg (by decide)]
    simp only [EnhancedParser.highPark_score_community]
    rw [if_pos (by norm_num)]
    unfold EnhancedParser.mfLoop
    rw [if_neg (by norm_num)]
  rw [h]
  rfl

end SwimTO
namespace SwimTO
namespace EnhancedParser

lemma patternStep_stays (text : List Char) (tl : Nat) (st : Option (List Char)) :
    ∀ (ps : List (List Char × List SPat)),
      ps.foldl (patternStep text tl) (st, 1) = (st, 1) := by
  intro ps
  induction ps with
  | nil => rfl
  | cons p ps ih =>
    rw [List.foldl_cons]
    have h : patternStep text tl (st, 1) p = (st, 1) := by
      unfold patternStep
      cases hs : searchLen p.2 text with
      | none => rfl
      | some len =>
        simp only
        rw [if_neg (not_lt.mpr (min_le_left _ _))]
    rw [h, ih]

lemma foldl_patternStep_none (text : List Char) (tl : Nat)
    (c : Option (List Char) × ℚ) :
    ∀ (ps : List (List Char × List SPat)),
      (∀ p ∈ ps, searchLen p.2 text = none) →
      ps.foldl (patternStep text tl) c = c := by
  intro ps
  induction ps generalizing c with
  | nil => intro _; rfl
  | cons p ps ih =>
    intro hall
    rw [List.foldl_cons]
    have h : patternStep text tl c p = c := by
      unfold patternStep
      rw [hall p (List.mem_cons_self _ _)]
    rw [h]
    exact ih c fun q hq => hall q (List.mem_cons_of_mem _ hq)

lemma is_swim_of_lane (title category : List Char)
    (h : containsSub (lowerL title) "lane swim".toList = true) :
    is_swim_activity title category = true := by
  unfold is_swim_activity
  have htext : lowerL (title ++ " ".toList ++ category) =
      (lowerL title ++ lowerL " ".toList) ++ lowerL category := by
    simp [lowerL]
  rw [htext]
  have h1 : containsSub ((lowerL title ++ lowerL " ".toList) ++ lowerL category)
      "lane swim".toList = true :=
    containsSub_append_right _ _ _ (containsSub_append_right _ _ _ h)
  show SWIM_KEYWORDS.any _ = true
  unfold SWIM_KEYWORDS
  rw [List.any_cons]
  rw [h1]
  rfl

lemma lane_fold_eval (category : List Char) :
    SWIM_TYPE_PATTERNS.foldl
      (patternStep ("lane swim ".toList ++ lowerL category)
        "lane swim".toList.length) (none, 0) = (some "LANE_SWIM".toList, 1) := by
  rw [show SWIM_TYPE_PATTERNS =
    ("LANE_SWIM".toList, [SPat.lit "lane".toList, SPat.ws1, SPat.lit "swim".toList])
      :: SWIM_TYPE_PATTERNS.tail from rfl]
  rw [List.foldl_cons]
  have h0 : patternStep ("lane swim ".toList ++ lowerL category)
      "lane swim".toList.length ((none : Option (List Char)), (0 : ℚ))
      ("LANE_SWIM".toList, [SPat.lit "lane".toList, SPat.ws1, SPat.lit "swim".toList])
      = (some "LANE_SWIM".toList, 1) := by
    unfold patternStep
    rw [show searchLen [SPat.lit "lane".toList, SPat.ws1, SPat.lit "swim".toList]
      ("lane swim ".toList ++ lowerL category) = some 9 from rfl]
    simp only
    rw [show ("lane swim".toList.length) = 9 from rfl]
    have harith : min (1 : ℚ) (((9 : ℕ) : ℚ) / ((9 : ℕ) : ℚ) * 2) = 1 := by norm_num
    rw [harith]
    rw [if_pos (by norm_num)]
  rw [h0]
  exact patternStep_stays _ _ _ _

lemma classify_lane_eval (category : List Char) :
    classify_swim_activity_advanced "lane swim".toList category =
      ⟨true, some "LANE_SWIM".toList, 1,
       tagsOf ("lane swim ".toList ++ lowerL category),
       ageGroupOf ("lane swim ".toList ++ lowerL category)⟩ := by
  have hswim := is_swim_of_lane "lane swim".toList category (by decide)
  unfold classify_swim_activity_advanced
  rw [hswim]
  rw [show lowerL ("lane swim".toList ++ " ".toList ++ category) =
    "lane swim ".toList ++ lowerL category from rfl]
  simp only [Bool.not_true]
  rw [if_neg Bool.false_ne_true]
  rw [lane_fold_eval]

end EnhancedParser
end SwimTO
namespace SwimTO

/-- Claim C7 (amended): for every title whose lower-casing contains
`lane swim` and every category, the advanced classifier reports a swim
activity; but the proxy confidence divides the match width by the title
length, so confidence at least 0.5 is not guaranteed for long titles (see
the counterexample).  For the title `lane swim` itself the classifier
returns LANE_SWIM with confidence 1 for every category. -/
theorem claim7_lane_swim_classification :
    (∀ (title category : List Char),
        containsSub (lowerL title) "lane swim".toList = true →
        (EnhancedParser.classify_swim_activity_advanced title category).is_swim
          = true) ∧
    (∀ category : List Char,
        (EnhancedParser.classify_swim_activity_advanced "lane swim".toList
            category).swim_type = some "LANE_SWIM".toList ∧
        (EnhancedParser.classify_swim_activity_advanced "lane swim".toList
            category).confidence = 1) := by
  constructor
  · intro title category h
    unfold EnhancedParser.classify_swim_activity_advanced
    rw [EnhancedParser.is_swim_of_lane title category h]
    rfl
  · intro category
    rw [EnhancedParser.classify_lane_eval category]
    exact ⟨rfl, rfl⟩

/-- Witness for C7: a concrete lane-swim title is classified as a swim
activity, and with the bare title `lane swim` the type is LANE_SWIM at
confidence 1. -/
theorem claim7_witness :
    (EnhancedParser.classify_swim_activity_advanced "Youth Lane Swim 19+".toList
        "Swimming".toList).is_swim = true ∧
    (EnhancedParser.classify_swim_activity_advanced "lane swim".toList
        "Recreation".toList).swim_type = some "LANE_SWIM".toList ∧
    (EnhancedParser.classify_swim_activity_advanced "lane swim".toList
        "Recreation".toList).confidence = 1 :=
  ⟨claim7_lane_swim_classification.1 "Youth Lane Swim 19+".toList
      "Swimming".toList (by decide),
   (claim7_lane_swim_classification.2 "Recreation".toList).1,
   (claim7_lane_swim_classification.2 "Recreation".toList).2⟩

end SwimTO
namespace SwimTO

/-- Counterexample for C7: a 38-character title containing `lane swim` is
classified with confidence `9/19 < 1/2`, refuting the claimed bound. -/
theorem claim7_counterexample :
    containsSub (lowerL "lane swim xxxxxxxxxxxxxxxxxxxxxxxxxxxx".toList)
        "lane swim".toList = true ∧
    ¬ ((1 : ℚ) / 2 ≤
      (EnhancedParser.classify_swim_activity_advanced
        "lane swim xxxxxxxxxxxxxxxxxxxxxxxxxxxx".toList "".toList).confidence) := by
  refine ⟨by decide, ?_⟩
  have hswim : EnhancedParser.is_swim_activity
      "lane swim xxxxxxxxxxxxxxxxxxxxxxxxxxxx".toList "".toList = true := by decide
  unfold EnhancedParser.classify_swim_activity_advanced
  rw [hswim]
  simp only [Bool.not_true]
  rw [if_neg Bool.false_ne_true]
  rw [show lowerL ("lane swim xxxxxxxxxxxxxxxxxxxxxxxxxxxx".toList ++ " ".toList
    ++ "".toList) = "lane swim xxxxxxxxxxxxxxxxxxxxxxxxxxxx ".toList from by decide]
  rw [show EnhancedParser.SWIM_TYPE_PATTERNS =
    ("LANE_SWIM".toList, [EnhancedParser.SPat.lit "lane".toList,
      EnhancedParser.SPat.ws1, EnhancedParser.SPat.lit "swim".toList])
      :: EnhancedParser.SWIM_TYPE_PATTERNS.tail from rfl]
  rw [List.foldl_cons]
  have h0 : EnhancedParser.patternStep
      "lane swim xxxxxxxxxxxxxxxxxxxxxxxxxxxx ".toList
      "lane swim xxxxxxxxxxxxxxxxxxxxxxxxxxxx".toList.length
      ((none : Option (List Char)), (0 : ℚ))
      ("LANE_SWIM".toList, [EnhancedParser.SPat.lit "lane".toList,
        EnhancedParser.SPat.ws1, EnhancedParser.SPat.lit "swim".toList])
      = (some "LANE_SWIM".toList, 9 / 19) := by
    unfold EnhancedParser.patternStep
    rw [show EnhancedParser.searchLen [EnhancedParser.SPat.lit "lane".toList,
      EnhancedParser.SPat.ws1, EnhancedParser.SPat.lit "swim".toList]
      "lane swim xxxxxxxxxxxxxxxxxxxxxxxxxxxx ".toList = some 9 from rfl]
    simp only
    rw [show ("lane swim xxxxxxxxxxxxxxxxxxxxxxxxxxxx".toList.length) = 38 from rfl]
    have harith : min (1 : ℚ) (((9 : ℕ) : ℚ) / ((38 : ℕ) : ℚ) * 2) = 9 / 19 := by
      rw [min_eq_right (by norm_num)]
      norm_num
    rw [harith]
    rw [if_pos (by norm_num)]
  rw [h0]
  have hall : ∀ p ∈ EnhancedParser.SWIM_TYPE_PATTERNS.tail,
      EnhancedParser.searchLen p.2
        "lane swim xxxxxxxxxxxxxxxxxxxxxxxxxxxx ".toList = none := by decide
  rw [EnhancedParser.foldl_patternStep_none _ _ _ _ hall]
  norm_num

end SwimTO
namespace SwimTO

/-- Claim C8 (amended): the scraper time parser inherits a missing AM/PM
designator from its sibling in both directions, so when exactly one of the
two times carries a designator both parsed times land in that designator's
half-day; the API's `parse_time_range` inherits only a missing end
designator from the start, and a start time without one is read as
24-hour text (see the counterexample). -/
theorem claim8_sibling_ampm_inheritance (g : FacilityScraper.SGroups) (p : AmPm)
    (h1 : 1 ≤ g.sh) (h2 : g.sh ≤ 12) (h3 : g.sm ≤ 59)
    (h4 : 1 ≤ g.eh) (h5 : g.eh ≤ 12) (h6 : g.em ≤ 59)
    (hd : (g.sp = some p ∧ g.ep = none) ∨ (g.sp = none ∧ g.ep = some p)) :
    ∃ st et, FacilityScraper.convertScraperGroups g = some (st, et) ∧
      (p = .pm → 12 ≤ st.hour ∧ 12 ≤ et.hour) ∧
      (p = .am → st.hour < 12 ∧ et.hour < 12) := by
  obtain ⟨sh, sm, sp, eh, em, ep⟩ := g
  simp only at h1 h2 h3 h4 h5 h6
  unfold FacilityScraper.convertScraperGroups
  rcases hd with ⟨ha, hb⟩ | ⟨ha, hb⟩ <;> subst ha <;> subst hb <;> cases p <;>
    simp only <;> split_ifs <;> simp_all <;>
    first
      | omega
      | exact ⟨_, _, ⟨rfl, rfl⟩, by dsimp only; omega⟩

/-- Witness for C8: `7:00 - 8:30 pm` style groups (designator only on the
end) convert with both times in the PM half-day. -/
theorem claim8_witness :
    ∃ st et, FacilityScraper.convertScraperGroups ⟨7, 0, none, 8, 30, some .pm⟩
        = some (st, et) ∧
      (AmPm.pm = .pm → 12 ≤ st.hour ∧ 12 ≤ et.hour) ∧
      (AmPm.pm = .am → st.hour < 12 ∧ et.hour < 12) :=
  claim8_sibling_ampm_inheritance ⟨7, 0, none, 8, 30, some .pm⟩ .pm
    (by decide) (by decide) (by decide) (by decide) (by decide) (by decide)
    (Or.inr ⟨rfl, rfl⟩)

/-- Counterexample for C8: in the API parser, `6:00 - 7:30 PM` (designator
only on the end time) parses the start as 06:00, not in the PM half-day. -/
theorem claim8_counterexample :
    TorontoDropInAPI.parse_time_range "6:00 - 7:30 PM".toList =
        [(⟨6, 0⟩, ⟨19, 30⟩)] ∧
    ¬ (12 ≤ (⟨6, 0⟩ : Time).hour) := by
  exact ⟨by decide, by decide⟩

end SwimTO
namespace SwimTO

lemma mem_ite_list {α : Type} (c : Prop) [Decidable c] (a : α) (l1 l2 : List α) :
    (a ∈ if c then l1 else l2) ↔ (c ∧ a ∈ l1) ∨ (¬ c ∧ a ∈ l2) := by
  split <;> simp [*]

/-- Claim C9 (amended): `validate_session_data` accumulates issues across
all checks, and it flags an invalid-swim-type issue exactly when the
session's swim type is nonempty and outside
`LANE_SWIM, AQUAFIT, RECREATIONAL, ADULT_SWIM, SENIOR_SWIM` — a list that
omits OTHER, so a session whose swim type is OTHER is flagged. -/
theorem claim9_invalid_swim_type_iff (today : Nat) (s : EnhancedParser.VSession) :
    (EnhancedParser.Issue.invalidSwimType s.swim_type ∈
      (EnhancedParser.validate_session_data today s).2) ↔
    (s.swim_type ≠ [] ∧ s.swim_type ∉ EnhancedParser.valid_types) := by
  obtain ⟨fn, dt, st, et, sw⟩ := s
  unfold EnhancedParser.validate_session_data
  rcases dt with _ | d <;> rcases st with _ | t1 <;> rcases et with _ | t2 <;>
    simp [mem_ite_list, List.mem_append]

end SwimTO
namespace SwimTO

/-- Witness for C9: a session with swim type `FREE_SWIM` (nonempty,
outside the list) receives the invalid-swim-type issue. -/
theorem claim9_witness :
    EnhancedParser.Issue.invalidSwimType "FREE_SWIM".toList ∈
      (EnhancedParser.validate_session_data 739194
        ⟨"Test Pool".toList, some 739194, some ⟨10, 0⟩, some ⟨11, 30⟩,
         "FREE_SWIM".toList⟩).2 :=
  (claim9_invalid_swim_type_iff 739194 _).mpr ⟨by decide, by decide⟩

/-- Counterexample for C9: a session whose swim type is OTHER and whose
other fields are valid is flagged with an invalid-swim-type issue, because
the validator's list of known types omits OTHER. -/
theorem claim9_counterexample :
    EnhancedParser.Issue.invalidSwimType "OTHER".toList ∈
      (EnhancedParser.validate_session_data 739194 otherTypeSession).2 ∧
    "OTHER".toList ∉ EnhancedParser.valid_types := by
  exact ⟨by decide, by decide⟩

end SwimTO
